import Mathlib

/-!
Verification development for the pymseed trace-segment management and
record trimming engine.

Part 1 embeds the Window Trim Engine of `examples/stream_timewindow.py`
(`trim_record` and the argument validation in `main`).  Python integers are
`Int`, Python floor division `//` is `Int.fdiv`, Python list slices are
explicit slice functions, and `ZeroDivisionError` is the error case of
`Except`.  The sample rate is a rational number standing for the record
header's sample-rate field; `int(NSTMODULUS / samprate)` is modelled as
truncation of the exact quotient toward zero.  The re-encode step
(`record.generate`) is the external Record Codec and is identity on the
sample run, so a trim result is the adjusted start time together with the
sample run handed to the codec.
-/

/-- Nanoseconds per second, the `NSTMODULUS` constant re-exported by pymseed. -/
def NSTMODULUS : Int := 1000000000

/-- Truncation of a rational toward zero, Python's `int(...)` conversion. -/
def ratTrunc (q : ℚ) : Int := if 0 ≤ q then ⌊q⌋ else -⌊-q⌋

/-- The nanosecond sample period `int(NSTMODULUS / record.samprate)`
computed at line 70 of `stream_timewindow.py`. -/
def samplePeriodNs (samprate : ℚ) : Int := ratTrunc ((NSTMODULUS : ℚ) / samprate)

/-- Python truthiness of an optional integer argument: `None` and `0` are
falsy, every other integer is truthy.  `trim_record` and `main` test the
bounds with `if earliest and ...`. -/
def truthy : Option Int → Bool
  | none => false
  | some v => v != 0

/-- The fields of a parsed miniSEED record used by `trim_record`:
`starttime`, `endtime` (nanosecond timestamps), `samprate`, and the decoded
`datasamples`.  The header sample count `samplecnt` of a decoded record
equals the length of its sample array. -/
structure MS3Rec where
  starttime : Int
  endtime : Int
  samprate : ℚ
  datasamples : List Int
deriving DecidableEq, Repr

/-- Header sample count of a decoded record. -/
def MS3Rec.samplecnt (r : MS3Rec) : Int := r.datasamples.length

/-- Python slice `xs[i:]` for a possibly negative integer index. -/
def pySliceFrom (xs : List Int) (i : Int) : List Int :=
  if 0 ≤ i then xs.drop i.toNat else xs.drop ((xs.length : Int) + i).toNat

/-- Python slice `xs[:-n]` for a positive integer `n`. -/
def pyDropLast (xs : List Int) (n : Int) : List Int :=
  xs.take ((xs.length : Int) - n).toNat

/-- Python runtime error raised inside `trim_record`: division by zero,
raised by `NSTMODULUS / samprate` when the rate is zero and by `// 0` when
the computed sample period is zero. -/
inductive PyExn
  | zeroDivision
deriving DecidableEq, Repr

/-- Result of a successful, non-empty trim: the adjusted record start time
and the sample run passed to the codec for re-encoding. -/
structure TrimResult where
  starttime : Int
  samples : List Int
deriving DecidableEq, Repr

/-- The Window Trim Engine `trim_record(msr, earliest, latest)` of
`stream_timewindow.py` lines 54-100.  `.ok none` is Python `None`
("not trimmable" / nothing survives), `.ok (some res)` is a re-encoded
record, `.error` a raised `ZeroDivisionError`. -/
def trim_record (msr : MS3Rec) (earliest latest : Option Int) :
    Except PyExn (Option TrimResult) :=
  -- line 57: `if msr.samplecnt == 0 and msr.samprate == 0.0: return None`
  if msr.samplecnt == 0 && msr.samprate == 0 then .ok none
  -- line 70: `sample_period_ns = int(NSTMODULUS / record.samprate)`
  else if msr.samprate == 0 then .error .zeroDivision
  else
    let period := samplePeriodNs msr.samprate
    let st0 := msr.starttime
    let et := msr.endtime
    let ds0 := msr.datasamples
    -- lines 73-77: leading trim to `earliest`
    let lead : Except PyExn (Int × List Int) :=
      if truthy earliest && decide (st0 < earliest.getD 0)
          && decide (earliest.getD 0 ≤ et) then
        if period == 0 then .error .zeroDivision
        else
          let skip := -((st0 - earliest.getD 0).fdiv period)
          .ok (st0 + skip * period, pySliceFrom ds0 skip)
      else .ok (st0, ds0)
    match lead with
    | .error e => .error e
    | .ok (st1, ds1) =>
      -- lines 80-87: trailing trim to `latest` (uses the updated start time
      -- and the original end time)
      let trail : Except PyExn (List Int) :=
        if truthy latest && decide (st1 ≤ latest.getD 0)
            && decide (latest.getD 0 < et) then
          if period == 0 then .error .zeroDivision
          else
            let rm := -((latest.getD 0 - et).fdiv period)
            .ok (if 0 < rm then pyDropLast ds1 rm else ds1)
        else .ok ds1
      match trail with
      | .error e => .error e
      | .ok ds2 =>
        -- lines 89-100: empty result is `None`, otherwise re-encode
        if ds2.isEmpty then .ok none else .ok (some ⟨st1, ds2⟩)

/-- Argument validation performed by `main` in `stream_timewindow.py`
lines 136-140 before any record is processed: `true` means the program
aborts with `parser.error` (an invalid-argument failure). -/
def mainRejectsArgs (earliest latest : Option Int) : Bool :=
  (truthy earliest && truthy latest && decide (earliest.getD 0 > latest.getD 0))
    || (!truthy earliest && !truthy latest)

deriving instance DecidableEq for Except

/-- The leading-sample skip count computed at line 75 of
`stream_timewindow.py`: `samples_to_skip = -((start_time - earliest) // sample_period_ns)`. -/
def samplesToSkip (r : MS3Rec) (e : Int) : Int :=
  -((r.starttime - e).fdiv (samplePeriodNs r.samprate))

/-- The 4200-sample record of the concrete trimming scenario: samples are
`0, 1, ..., 4199` at 1000 Hz (one sample per million nanoseconds), so the
record spans `[0, 4199 * period]`. -/
def c3Samples : List Int := List.map Int.ofNat (List.range 4200)

/-- The concrete scenario record: `T0 = 0`, `period = 1000000` ns. -/
def c3Rec : MS3Rec := ⟨0, 4199000000, 1000, c3Samples⟩

/-!
Part 2 models the trace-segment management and Pack/Generate Engine
(spec §3, §4.2, §4.4).  The implementation (libmseed's `MS3TraceList`,
reached through the `pymseed.mstracelist` binding) is not part of the
Python sources here — only its tests and callers are — so the engine is
modelled from the spec.  Times are integer nanosecond timestamps; the
sample spacing of a run is carried as its integer nanosecond period
(`NSTMODULUS / sample_rate`, the fixed-point form of §4.5 step 2), and two
runs share a sample rate iff they share this period.  The Record Codec is
out of scope (§6), so an emitted record is its source-id tag together with
the sample run handed to the codec.  The `flush_idle_seconds` branch of
§4.4 step 2 compares a caller-supplied "now" against the segment end time;
none of the claims exercises it and it is not triggered in the modelled
runs, so it is omitted.
-/

/-- Modelled from the spec: a Trace Segment (spec §3) — an ordered run of
samples for one channel, with `start_time` in integer nanoseconds and the
nanosecond sample period; `end_time` is derived, not stored. -/
structure Segment where
  starttime : Int
  periodNs : Int
  samples : List Int
deriving DecidableEq, Repr

/-- Modelled from the spec: the expected start time of the sample that
would follow a segment, `end_time + period = start_time + count * period`
(spec §4.2 step 3). -/
def Segment.nextExpected (s : Segment) : Int :=
  s.starttime + (s.samples.length : Int) * s.periodNs

/-- Modelled from the spec: a Trace ID (spec §3), one channel's ordered
collection of segments. -/
structure TraceID where
  segments : List Segment
deriving DecidableEq, Repr

/-- Modelled from the spec: a Trace List (spec §3), a mapping from source
id to Trace ID with no duplicate keys; spec §3 allows iteration order to be
any deterministic order, and this model preserves insertion order. -/
abbrev TraceList := List (String × TraceID)

/-- Modelled from the spec: the Merge Engine decision (spec §4.2 steps 2-5)
on one channel's segment list: new data extends the last segment when the
sample rate matches and its start time is within the tolerance of half a
sample period of the expected next-sample time (`2*|start - expected| ≤
period` avoids halving an odd integer period), otherwise a new segment is
appended after the last. -/
def mergeIntoSegments : List Segment → Int → Int → List Int → List Segment
  | [], start, per, chunk => [⟨start, per, chunk⟩]
  | [last], start, per, chunk =>
      if per = last.periodNs ∧ 2 * |start - last.nextExpected| ≤ per then
        [⟨last.starttime, last.periodNs, last.samples ++ chunk⟩]
      else [last, ⟨start, per, chunk⟩]
  | s :: s2 :: rest, start, per, chunk =>
      s :: mergeIntoSegments (s2 :: rest) start per chunk

/-- Modelled from the spec: `add_data` ingestion (spec §4.2 step 1 and §3):
look up or create the Trace ID for the source id (a new channel is appended
at the end, preserving insertion order) and merge the sample run into its
segments. -/
def addData (tl : TraceList) (sid : String) (start per : Int)
    (chunk : List Int) : TraceList :=
  match tl with
  | [] => [(sid, ⟨[⟨start, per, chunk⟩]⟩)]
  | (k, tid) :: rest =>
    if sid = k then (k, ⟨mergeIntoSegments tid.segments start per chunk⟩) :: rest
    else (k, tid) :: addData rest sid start per chunk

/-- Modelled from the spec: the Pack/Generate Engine's per-invocation
policy switches (spec §4.4): the full-record sample capacity derived from
the target record byte length, the `flush_data` flag, and the
`remove_packed` flag. -/
structure GenOpts where
  maxSamp : Nat
  flushData : Bool
  removePacked : Bool
deriving DecidableEq, Repr

/-- Modelled from the spec: step 1 of the Pack/Generate Engine (spec §4.4):
the contiguous leading samples that fill complete records of exactly
`n` samples each. -/
def fullChunks (n : Nat) (xs : List Int) : List (List Int) :=
  (List.range (xs.length / n)).map fun i => (xs.drop (i * n)).take n

/-- Modelled from the spec: the remainder (fewer than one full record's
worth) left after the full records of step 1. -/
def remChunk (n : Nat) (xs : List Int) : List Int := xs.drop (xs.length / n * n)

/-- Modelled from the spec: the records a single segment contributes to one
invocation (spec §4.4 steps 1-2): all full records, plus one short record
holding the remainder when `flush_data` is set and the remainder is
nonempty. -/
def packSegmentRecords (o : GenOpts) (s : Segment) : List (List Int) :=
  fullChunks o.maxSamp s.samples
    ++ if o.flushData = true ∧ remChunk o.maxSamp s.samples ≠ [] then
        [remChunk o.maxSamp s.samples]
      else []

/-- Modelled from the spec: step 3 of the Pack/Generate Engine (spec §4.4):
with `remove_packed` the emitted samples are deleted from the front of the
segment and `start_time` advances by `emitted * period`; a fully drained
segment is removed (`none`); without `remove_packed` the segment is kept
unchanged. -/
def packSegmentRemain (o : GenOpts) (s : Segment) : Option Segment :=
  if o.removePacked then
    let cnt := ((packSegmentRecords o s).map List.length).sum
    let rest := s.samples.drop cnt
    if rest.isEmpty then none
    else some ⟨s.starttime + (cnt : Int) * s.periodNs, s.periodNs, rest⟩
  else some s

/-- Modelled from the spec: one invocation over a Trace ID's segments,
oldest first (spec §4.4): the emitted records in order and the surviving
segments. -/
def packSegments (o : GenOpts) : List Segment → List (List Int) × List Segment
  | [] => ([], [])
  | s :: rest =>
    let r := packSegments o rest
    match packSegmentRemain o s with
    | none => (packSegmentRecords o s ++ r.1, r.2)
    | some s2 => (packSegmentRecords o s ++ r.1, s2 :: r.2)

/-- Modelled from the spec: `generate`/`pack` over the whole Trace List in
source-id order (spec §4.4): each emitted record is tagged with its source
id; a Trace ID whose segments are all drained is removed from the mapping. -/
def generate (o : GenOpts) : TraceList → List (String × List Int) × TraceList
  | [] => ([], [])
  | (k, tid) :: rest =>
    let pr := packSegments o tid.segments
    let gr := generate o rest
    ((pr.1.map fun rs => (k, rs)) ++ gr.1,
      if pr.2.isEmpty then gr.2 else (k, ⟨pr.2⟩) :: gr.2)

/-- Total number of samples across a list of emitted records. -/
def emittedSampleCount (recs : List (String × List Int)) : Nat :=
  (recs.map fun r => r.2.length).sum

/-- Total number of samples buffered in a Trace List. -/
def bufferedCount (tl : TraceList) : Nat :=
  (tl.map fun p => ((p.2.segments.map fun s => s.samples.length).sum)).sum

/-- Modelled from the spec: the operations of a rolling-buffer client
(spec §8, rolling-buffer drain): adding a chunk of samples, or a
generate/pack invocation with `remove_packed=True`. -/
inductive StreamOp
  | add (sid : String) (start : Int) (per : Int) (chunk : List Int)
  | gen (maxSamp : Nat) (flushData : Bool)
deriving DecidableEq, Repr

/-- Run a sequence of rolling-buffer operations against a Trace List,
collecting every emitted record. -/
def runStream : List StreamOp → TraceList → List (String × List Int) × TraceList
  | [], tl => ([], tl)
  | .add sid t per c :: rest, tl => runStream rest (addData tl sid t per c)
  | .gen n f :: rest, tl =>
    let g := generate ⟨n, f, true⟩ tl
    let r := runStream rest g.2
    (g.1 ++ r.1, r.2)

/-- Total number of samples fed by the `add` operations of a run. -/
def addedCount : List StreamOp → Nat
  | [] => 0
  | .add _ _ _ c :: rest => c.length + addedCount rest
  | .gen _ _ :: rest => addedCount rest

/-- Number of samples a segment retains after an invocation: zero when it
was drained and removed. -/
def retainedCount : Option Segment → Nat
  | none => 0
  | some s2 => s2.samples.length

/-- A 100-sample chunk, one iteration's worth of data for one channel. -/
def c5Chunk : List Int := List.replicate 100 0

/-- One iteration of the three-channel scenario at 40 Hz (25000000 ns
period, so a 100-sample chunk advances the start time by 2500000000 ns):
add a chunk to each channel, then pack filled records without flushing. -/
def c5Iteration (i : Nat) : List StreamOp :=
  [StreamOp.add "A" ((i : Int) * 2500000000) 25000000 c5Chunk,
   StreamOp.add "B" ((i : Int) * 2500000000) 25000000 c5Chunk,
   StreamOp.add "C" ((i : Int) * 2500000000) 25000000 c5Chunk,
   StreamOp.gen 400 false]

/-- The three-channel scenario: `iters` iterations followed by a final
flushing pack, at a record capacity of 400 samples (a 512-byte record). -/
def c5Ops (iters : Nat) : List StreamOp :=
  (List.range iters).flatMap c5Iteration ++ [StreamOp.gen 400 true]

/-- Modelled from the spec: a source-record reference (spec §3,
`source_record_refs`): one record's byte range abstracted as the record's
start time together with the sample run the codec's decode produces for
that range. -/
structure RecordRef where
  starttime : Int
  decoded : List Int
deriving DecidableEq, Repr

/-- Modelled from the spec: a segment ingested in index-only mode (spec
§4.3): the record references are kept but `samples` stays empty until
materialization. -/
structure LazySegment where
  periodNs : Int
  recordRefs : List RecordRef
  samples : List Int
deriving DecidableEq, Repr

/-- Modelled from the spec: index-only ingestion (spec §4.3,
`record_list=True, unpack_data=False`): record references are stored and no
samples are decoded. -/
def ingestIndexOnly (per : Int) (refs : List RecordRef) : LazySegment :=
  ⟨per, refs, []⟩

/-- The `numsamples` a segment reports: the length of its decoded buffer. -/
def LazySegment.numsamples (s : LazySegment) : Nat := s.samples.length

/-- Insertion into a list of record references ordered by start time. -/
def insertByStart (r : RecordRef) : List RecordRef → List RecordRef
  | [] => [r]
  | x :: xs =>
    if r.starttime ≤ x.starttime then r :: x :: xs else x :: insertByStart r xs

/-- Ascending-time ordering of record references (insertion sort). -/
def sortByStart : List RecordRef → List RecordRef
  | [] => []
  | x :: xs => insertByStart x (sortByStart xs)

/-- Modelled from the spec: `unpack_recordlist` materialization (spec §4.3):
run the codec's decode over every referenced byte range in ascending time
order and concatenate the results into `samples`. -/
def unpackRecordlist (s : LazySegment) : LazySegment :=
  ⟨s.periodNs, s.recordRefs, (sortByStart s.recordRefs).flatMap RecordRef.decoded⟩

/-- Modelled from the spec: eager decoding of the same input (spec §2 data
flow): each record's samples are decoded immediately and appended in
ingestion order. -/
def eagerDecode (refs : List RecordRef) : List Int :=
  refs.flatMap RecordRef.decoded

/-!
Part 3 models the diagnostic-message capture of `pymseed/logging.py`.
The Python wrappers call the C library's registry primitives
(`ms_rloginit`, `ms_rlog_pop`, `ms_rlog_free`) with a NULL registry
pointer, which the library resolves to the calling thread's own registry;
the registry itself lives in the C library, so it is modelled from the
spec (§5: each worker thread owns an independent diagnostic channel).  The
registry state is a mapping from thread id to that thread's queued
messages. -/

/-- A thread identity. -/
abbrev ThreadId := Nat

/-- Modelled from the spec: the per-thread message registries of the C
library's logging facility — each thread id maps to its own queue of
captured diagnostics. -/
abbrev LogRegistries := List (ThreadId × List String)

/-- The calling thread's queue (a thread with no registry has no messages). -/
def regLookup : LogRegistries → ThreadId → List String
  | [], _ => []
  | (k, v) :: rest, t => if k = t then v else regLookup rest t

/-- Replace the calling thread's queue, creating its registry if absent. -/
def regSet : LogRegistries → ThreadId → List String → LogRegistries
  | [], t, m => [(t, m)]
  | (k, v) :: rest, t, m =>
    if k = t then (k, m) :: rest else (k, v) :: regSet rest t m

/-- Modelled from the spec: a parse/pack diagnostic produced on thread `t`
is appended to that thread's registry, discarding the oldest messages
beyond the configured capacity (`configure_logging` docstring: "When the
registry is full, oldest messages are discarded"). -/
def logMessage (t : ThreadId) (cap : Nat) (msg : String)
    (reg : LogRegistries) : LogRegistries :=
  let q := regLookup reg t ++ [msg]
  regSet reg t (q.drop (q.length - cap))

/-- The `get_error_messages` wrapper (`logging.py` lines 84-106): pop every
message of the calling thread's registry (the `ms_rlog_pop` loop) and
return them; the thread's registry is empty afterward. -/
def get_error_messages (t : ThreadId) (reg : LogRegistries) :
    List String × LogRegistries :=
  (regLookup reg t, regSet reg t [])

/-- The `clear_error_messages` wrapper (`logging.py` lines 74-81):
`ms_rlog_free` empties the calling thread's registry and returns the number
of messages cleared. -/
def clear_error_messages (t : ThreadId) (reg : LogRegistries) :
    Nat × LogRegistries :=
  ((regLookup reg t).length, regSet reg t [])

/-- Evaluation of the sample period at 1000 Hz, used by concrete instances. -/
theorem samplePeriodNs_1000 : samplePeriodNs 1000 = 1000000 := by
  norm_num [samplePeriodNs, ratTrunc, NSTMODULUS]

/-- Floor-division bounds: `Int.fdiv` by a positive divisor is the floor of
the exact quotient. -/
theorem fdiv_bounds (a p : Int) (hp : 0 < p) :
    p * a.fdiv p ≤ a ∧ a < p * a.fdiv p + p := by
  rw [Int.fdiv_eq_ediv a hp.le]
  have h := Int.ediv_add_emod a p
  have h1 := Int.emod_nonneg a hp.ne'
  have h2 := Int.emod_lt_of_pos a hp
  constructor <;> linarith

/-- The negative-numerator floor-division trick computes the ceiling of the
exact rational quotient: `-((-a) // p) = ceil(a / p)` for positive `p`. -/
theorem neg_fdiv_neg_eq_ceil (a p : Int) (hp : 0 < p) :
    -((-a).fdiv p) = ⌈(a : ℚ) / (p : ℚ)⌉ := by
  obtain ⟨h1, h2⟩ := fdiv_bounds (-a) p hp
  have hpq : (0 : ℚ) < (p : ℚ) := by exact_mod_cast hp
  have g1 : (-((-a).fdiv p) - 1) * p < a := by nlinarith
  have g2 : a ≤ -((-a).fdiv p) * p := by nlinarith
  symm
  rw [Int.ceil_eq_iff]
  constructor
  · rw [lt_div_iff₀ hpq]
    have gq : (((-((-a).fdiv p) - 1) * p : Int) : ℚ) < ((a : Int) : ℚ) := by exact_mod_cast g1
    push_cast at gq ⊢
    linarith
  · rw [div_le_iff₀ hpq]
    have gq : ((a : Int) : ℚ) ≤ ((-((-a).fdiv p) * p : Int) : ℚ) := by exact_mod_cast g2
    push_cast at gq ⊢
    linarith

/-- C1 counterexample: a record with a nonzero sample count but zero sample
rate makes `trim_record` raise `ZeroDivisionError` at
`int(NSTMODULUS / record.samprate)` instead of returning `None`: the early
return at line 57 requires zero sample count AND zero sample rate. -/
theorem trim_record_zero_rate_counterexample :
    (⟨0, 0, 0, [1]⟩ : MS3Rec).samprate = 0
      ∧ trim_record ⟨0, 0, 0, [1]⟩ (some 5) none = .error .zeroDivision := by
  refine ⟨rfl, ?_⟩
  simp only [trim_record, MS3Rec.samplecnt]
  norm_num

/-- C1 (amended): a record with zero sample count is reported not trimmable
(`None`) whenever its sample rate is zero (early return at line 57) or its
computed nanosecond sample period is nonzero (the empty sample array
survives both trims and fails the `if not data_samples` check); a record
with zero sample rate but nonzero sample count instead raises
`ZeroDivisionError`. -/
theorem trim_record_zero_samplecount (r : MS3Rec) (e l : Option Int)
    (hcnt : r.datasamples = [])
    (hper : r.samprate = 0 ∨ samplePeriodNs r.samprate ≠ 0) :
    trim_record r e l = .ok none := by
  rcases hper with h0 | hper
  · simp [trim_record, MS3Rec.samplecnt, hcnt, h0]
  · have hq : r.samprate ≠ 0 := by
      intro h
      exact hper (by rw [h]; norm_num [samplePeriodNs, ratTrunc])
    have hb : (r.samprate == 0) = false := by simp [hq]
    have hpb : (samplePeriodNs r.samprate == 0) = false := by simp [hper]
    simp only [trim_record, MS3Rec.samplecnt, hcnt, List.length_nil, hb, hpb,
      Bool.and_false, Bool.false_eq_true, if_false, pySliceFrom, pyDropLast,
      List.drop_nil, List.take_nil]
    split
    · rename_i pex heq
      split at heq <;> simp_all
    · rename_i st1 ds1 heq
      have hds1 : ds1 = [] := by split at heq <;> simp_all
      subst hds1
      simp [pyDropLast]

/-- Closed instantiation of `trim_record_zero_samplecount` at a record with
zero samples and a 1000 Hz rate. -/
theorem trim_record_zero_samplecount_witness :
    (⟨0, 0, 1000, []⟩ : MS3Rec).datasamples = []
      ∧ trim_record ⟨0, 0, 1000, []⟩ (some 1) none = .ok none :=
  ⟨rfl, trim_record_zero_samplecount ⟨0, 0, 1000, []⟩ (some 1) none rfl
    (Or.inr (by norm_num [samplePeriodNs_1000]))⟩

/-- C2 counterexample: an `earliest` bound whose nanosecond value is exactly
0 (the 1970 epoch) is falsy in Python, so the leading trim at line 73 is
skipped even though `start_time < earliest <= end_time` holds: a record
starting two sample periods before the epoch keeps all four samples instead
of dropping `ceil((0 - start_time)/period) = 2` of them. -/
theorem trim_record_zero_bound_counterexample :
    ((-2000000 : Int) < 0 ∧ (0 : Int) ≤ 1000000 ∧ (0 : ℚ) < 1000)
      ∧ trim_record ⟨-2000000, 1000000, 1000, [10, 20, 30, 40]⟩ (some 0) none
          = .ok (some ⟨-2000000, [10, 20, 30, 40]⟩)
      ∧ trim_record ⟨-2000000, 1000000, 1000, [10, 20, 30, 40]⟩ (some 0) none
          ≠ .ok (some ⟨0, [30, 40]⟩) := by
  have heval : trim_record ⟨-2000000, 1000000, 1000, [10, 20, 30, 40]⟩ (some 0) none
      = .ok (some ⟨-2000000, [10, 20, 30, 40]⟩) := by
    simp only [trim_record, MS3Rec.samplecnt]
    norm_num [truthy]
  refine ⟨by norm_num, heval, ?_⟩
  rw [heval]
  decide

/-- C2 (amended): for a record with positive sample rate, a sample period of
at least one nanosecond, and consistent header times, a nonzero `earliest`
bound strictly inside the record span makes `trim_record` (with no `latest`
bound) drop exactly `-((start_time - earliest) // period)` leading samples,
which equals `ceil((earliest - start_time)/period)` and is positive, and
advance the start time by that count times the period; when `earliest` lies
exactly on the sample boundary `start_time + j*period`, exactly `j` samples
are dropped and the boundary sample itself (index `j`) is retained as the
first remaining sample. -/
theorem trim_record_leading_drop (r : MS3Rec) (e : Int)
    (hrate : 0 < r.samprate)
    (hp : 0 < samplePeriodNs r.samprate)
    (he : e ≠ 0)
    (h1 : r.starttime < e)
    (h2 : e ≤ r.endtime)
    (hcons : r.endtime
      = r.starttime + ((r.datasamples.length : Int) - 1) * samplePeriodNs r.samprate) :
    samplesToSkip r e
        = ⌈((e - r.starttime : Int) : ℚ) / ((samplePeriodNs r.samprate : Int) : ℚ)⌉
      ∧ 0 < samplesToSkip r e
      ∧ trim_record r (some e) none
          = .ok (some ⟨r.starttime + samplesToSkip r e * samplePeriodNs r.samprate,
              r.datasamples.drop (samplesToSkip r e).toNat⟩)
      ∧ ∀ j : ℕ, e = r.starttime + (j : Int) * samplePeriodNs r.samprate →
          samplesToSkip r e = (j : Int)
            ∧ (r.datasamples.drop (samplesToSkip r e).toNat).head?
                = r.datasamples[(j : ℕ)]? := by
  simp only [samplesToSkip]
  obtain ⟨hb1, hb2⟩ := fdiv_bounds (r.starttime - e) (samplePeriodNs r.samprate) hp
  have hceil : -((r.starttime - e).fdiv (samplePeriodNs r.samprate))
      = ⌈((e - r.starttime : Int) : ℚ) / ((samplePeriodNs r.samprate : Int) : ℚ)⌉ := by
    rw [show r.starttime - e = -(e - r.starttime) by ring]
    exact neg_fdiv_neg_eq_ceil (e - r.starttime) (samplePeriodNs r.samprate) hp
  have hkpos : 0 < -((r.starttime - e).fdiv (samplePeriodNs r.samprate)) := by nlinarith
  have hkle : -((r.starttime - e).fdiv (samplePeriodNs r.samprate))
      ≤ (r.datasamples.length : Int) - 1 := by
    have hhigh : e - r.starttime
        ≤ ((r.datasamples.length : Int) - 1) * samplePeriodNs r.samprate := by
      rw [hcons] at h2; linarith
    nlinarith
  have hklt : (-((r.starttime - e).fdiv (samplePeriodNs r.samprate))).toNat
      < r.datasamples.length := by omega
  have heq : trim_record r (some e) none
      = .ok (some ⟨r.starttime
            + -((r.starttime - e).fdiv (samplePeriodNs r.samprate)) * samplePeriodNs r.samprate,
          r.datasamples.drop (-((r.starttime - e).fdiv (samplePeriodNs r.samprate))).toNat⟩) := by
    have hb : (r.samprate == 0) = false := by simp [hrate.ne']
    have hpb : (samplePeriodNs r.samprate == 0) = false := by simp [hp.ne']
    have hcond : (truthy (some e) && decide (r.starttime < e)
        && decide (e ≤ r.endtime)) = true := by
      simp [truthy, he, h1, h2]
    have hslice : pySliceFrom r.datasamples
          (-((r.starttime - e).fdiv (samplePeriodNs r.samprate)))
        = r.datasamples.drop
            (-((r.starttime - e).fdiv (samplePeriodNs r.samprate))).toNat := by
      rw [pySliceFrom, if_pos]
      exact hkpos.le
    have hne : ¬(r.datasamples.drop
        (-((r.starttime - e).fdiv (samplePeriodNs r.samprate))).toNat).isEmpty = true := by
      simp only [List.isEmpty_iff, List.drop_eq_nil_iff]
      omega
    simp only [trim_record, MS3Rec.samplecnt, hb, Bool.and_false, Bool.false_eq_true,
      if_false, Option.getD_some, hcond, if_true, hpb, truthy, Bool.false_and]
    rw [hslice]
    have hcond2 : (e != 0 && decide (r.starttime < e) && decide (e ≤ r.endtime)) = true := by
      simp [he, h1, h2]
    simp only [hcond2, if_true]
    rw [if_neg hne]
  refine ⟨hceil, hkpos, heq, ?_⟩
  intro j hj
  have hpq : ((samplePeriodNs r.samprate : Int) : ℚ) ≠ 0 := by
    exact_mod_cast hp.ne'
  have hkj : -((r.starttime - e).fdiv (samplePeriodNs r.samprate)) = (j : Int) := by
    rw [hceil, show e - r.starttime = (j : Int) * samplePeriodNs r.samprate by omega]
    push_cast
    rw [mul_div_assoc, div_self hpq, mul_one, Int.ceil_natCast]
  refine ⟨hkj, ?_⟩
  rw [List.head?_drop]
  congr 1
  omega

/-- Closed instantiation of `trim_record_leading_drop` for a four-sample
1000 Hz record trimmed from 1.5 sample periods after its start. -/
theorem trim_record_leading_drop_witness :
    0 < samplePeriodNs 1000
      ∧ (samplesToSkip ⟨0, 3000000, 1000, [10, 20, 30, 40]⟩ 1500000
            = ⌈((1500000 - 0 : Int) : ℚ) / ((samplePeriodNs 1000 : Int) : ℚ)⌉
          ∧ 0 < samplesToSkip ⟨0, 3000000, 1000, [10, 20, 30, 40]⟩ 1500000
          ∧ trim_record ⟨0, 3000000, 1000, [10, 20, 30, 40]⟩ (some 1500000) none
              = .ok (some ⟨0 + samplesToSkip ⟨0, 3000000, 1000, [10, 20, 30, 40]⟩ 1500000
                      * samplePeriodNs 1000,
                  ([10, 20, 30, 40] : List Int).drop
                    (samplesToSkip ⟨0, 3000000, 1000, [10, 20, 30, 40]⟩ 1500000).toNat⟩)
          ∧ ∀ j : ℕ, (1500000 : Int) = 0 + (j : Int) * samplePeriodNs 1000 →
              samplesToSkip ⟨0, 3000000, 1000, [10, 20, 30, 40]⟩ 1500000 = (j : Int)
                ∧ (([10, 20, 30, 40] : List Int).drop
                      (samplesToSkip ⟨0, 3000000, 1000, [10, 20, 30, 40]⟩ 1500000).toNat).head?
                  = ([10, 20, 30, 40] : List Int)[(j : ℕ)]?) :=
  ⟨by rw [samplePeriodNs_1000]; norm_num,
   trim_record_leading_drop ⟨0, 3000000, 1000, [10, 20, 30, 40]⟩ 1500000
     (by norm_num) (by rw [samplePeriodNs_1000]; norm_num) (by decide) (by decide)
     (by decide) (by norm_num [samplePeriodNs_1000])⟩

/-- Evaluation of `trim_record` on the concrete window scenario, stated for
an arbitrary 4200-sample array so the sample values stay symbolic. -/
theorem trim_record_c3_eval (ds : List Int) (hlen : ds.length = 4200) :
    trim_record ⟨0, 4199000000, 1000, ds⟩ (some 10000000) (some 4188000000)
      = .ok (some ⟨10000000, (ds.drop 10).take 4179⟩) := by
  have hb : ((1000 : ℚ) == 0) = false := by norm_num
  have hpb : (samplePeriodNs 1000 == 0) = false := by
    rw [samplePeriodNs_1000]; decide
  have hf1 : (((0 : Int) - 10000000).fdiv 1000000) = -10 := by decide
  have hf2 : (((4188000000 : Int) - 4199000000).fdiv 1000000) = -11 := by decide
  have hslice : pySliceFrom ds 10 = ds.drop 10 := by
    rw [pySliceFrom, if_pos]
    · rfl
    · decide
  have hlen10 : (ds.drop 10).length = 4190 := by rw [List.length_drop, hlen]
  have hkeep : pyDropLast (ds.drop 10) 11 = (ds.drop 10).take 4179 := by
    rw [pyDropLast, hlen10]
    rfl
  have hne : (ds.drop 10).take 4179 ≠ [] := by
    simp only [ne_eq, List.take_eq_nil_iff, List.drop_eq_nil_iff, hlen]
    omega
  simp only [trim_record, MS3Rec.samplecnt, hb, Bool.and_false, Bool.false_eq_true,
    if_false, Option.getD_some, samplePeriodNs_1000, truthy, hf1, hf2, hslice]
  norm_num [hslice, hkeep, hne]

/-- C3: trimming the 4200-sample record to `[T0 + 10*period, T0 + 4188*period]`
keeps exactly `4188 - 10 + 1 = 4179` samples, namely elements 10 through 4188
of the original array, with the new start time `T0 + 10*period`; the trailing
drop count is computed from the end with the same floor-division trick, and
the surviving run is characterized by its start time and count alone. -/
theorem trim_record_window_4179 :
    trim_record c3Rec (some 10000000) (some 4188000000)
        = .ok (some ⟨10000000, (c3Samples.drop 10).take 4179⟩)
      ∧ ((c3Samples.drop 10).take 4179).length = 4179
      ∧ (c3Samples.drop 10).take 4179 = (c3Samples.take 4189).drop 10
      ∧ (10000000 : Int) = 0 + 10 * samplePeriodNs 1000 := by
  have hlen : c3Samples.length = 4200 := by
    rw [c3Samples, List.length_map, List.length_range]
  refine ⟨trim_record_c3_eval c3Samples hlen, ?_, ?_, by rw [samplePeriodNs_1000]; norm_num⟩
  · rw [List.length_take, List.length_drop, hlen]
    omega
  · rw [List.drop_take]

/-- C8 counterexample: with `earliest` equal to nanosecond time 0 (the 1970
epoch) and `latest` a negative (pre-1970) time, `earliest > latest` holds
and both bounds were supplied, yet `main` does not reject: the check at
line 136 tests `args.earliest and args.latest and ...` and a zero bound is
falsy, so processing proceeds. -/
theorem mainRejectsArgs_zero_epoch_counterexample :
    (0 : Int) > -5 ∧ mainRejectsArgs (some 0) (some (-5)) = false := by decide

/-- C8 (amended): the front-end rejects its arguments before processing any
record when neither bound is given, and when both bounds are given, nonzero,
and `earliest > latest`; a bound whose nanosecond value is exactly 0 is
treated as absent by the Python truthiness test. -/
theorem mainRejectsArgs_invalid (e l : Int) (he : e ≠ 0) (hl : l ≠ 0)
    (hgt : e > l) :
    mainRejectsArgs (some e) (some l) = true ∧ mainRejectsArgs none none = true := by
  constructor
  · simp [mainRejectsArgs, truthy, he, hl, hgt]
  · rfl

/-- Closed instantiation of `mainRejectsArgs_invalid` at bounds 5 and -3. -/
theorem mainRejectsArgs_invalid_witness :
    ((5 : Int) ≠ 0 ∧ (5 : Int) > -3)
      ∧ (mainRejectsArgs (some 5) (some (-3)) = true
          ∧ mainRejectsArgs none none = true) :=
  ⟨by decide, mainRejectsArgs_invalid 5 (-3) (by decide) (by decide) (by decide)⟩

/-- Sum of a constant-valued function over an index range. -/
theorem sum_map_range_eq_mul (k n : Nat) (f : Nat → Nat) (h : ∀ i, i < k → f i = n) :
    ((List.range k).map f).sum = k * n := by
  induction k with
  | zero => simp
  | succ k ih =>
    rw [List.range_succ, List.map_append, List.sum_append]
    rw [ih fun i hi => h i (Nat.lt_succ_of_lt hi)]
    simp [h k (Nat.lt_succ_self k)]
    ring

/-- The full records of one invocation hold exactly `len / n * n` samples. -/
theorem sum_lengths_fullChunks (n : Nat) (xs : List Int) :
    ((fullChunks n xs).map List.length).sum = xs.length / n * n := by
  rw [fullChunks, List.map_map]
  apply sum_map_range_eq_mul
  intro i hi
  simp only [Function.comp_apply, List.length_take, List.length_drop]
  have h1 : xs.length / n * n ≤ xs.length := Nat.div_mul_le_self _ _
  have h2 : i * n + n ≤ xs.length / n * n := by
    have h3 : (i + 1) * n ≤ xs.length / n * n := Nat.mul_le_mul_right n hi
    rw [add_mul, one_mul] at h3
    exact h3
  omega

/-- Sample count emitted by one segment in one invocation: everything when
flushing a nonempty remainder, otherwise only the full records. -/
theorem emitted_count_seg (o : GenOpts) (s : Segment) :
    ((packSegmentRecords o s).map List.length).sum
      = if o.flushData = true ∧ remChunk o.maxSamp s.samples ≠ [] then
          s.samples.length
        else s.samples.length / o.maxSamp * o.maxSamp := by
  rw [packSegmentRecords]
  split
  · rw [List.map_append, List.sum_append, sum_lengths_fullChunks]
    simp only [List.map_cons, List.map_nil, List.sum_cons, List.sum_nil, remChunk,
      List.length_drop]
    have := Nat.div_mul_le_self s.samples.length o.maxSamp
    omega
  · simp [sum_lengths_fullChunks]

/-- The emitted sample count of one segment never exceeds its buffer. -/
theorem emitted_count_seg_le (o : GenOpts) (s : Segment) :
    ((packSegmentRecords o s).map List.length).sum ≤ s.samples.length := by
  rw [emitted_count_seg]
  split
  · exact le_refl _
  · exact Nat.div_mul_le_self _ _

theorem retainedCount_none : retainedCount none = 0 := rfl

theorem retainedCount_some (s : Segment) :
    retainedCount (some s) = s.samples.length := rfl

/-- Conservation per segment under `remove_packed`: emitted samples plus
retained samples equal the original buffer. -/
theorem packSegmentRemain_conserve (o : GenOpts) (s : Segment)
    (ho : o.removePacked = true) :
    ((packSegmentRecords o s).map List.length).sum
        + retainedCount (packSegmentRemain o s)
      = s.samples.length := by
  have hle := emitted_count_seg_le o s
  simp only [packSegmentRemain, ho, if_true]
  by_cases h : (s.samples.drop ((packSegmentRecords o s).map List.length).sum).isEmpty = true
  · rw [if_pos h, retainedCount_none]
    simp only [List.isEmpty_iff, List.drop_eq_nil_iff] at h
    omega
  · rw [if_neg h, retainedCount_some]
    simp only [List.length_drop]
    omega

/-- Under `flush_data` and `remove_packed`, every segment is fully drained
and removed. -/
theorem packSegmentRemain_flush (o : GenOpts) (s : Segment)
    (ho : o.removePacked = true) (hf : o.flushData = true) :
    packSegmentRemain o s = none := by
  simp only [packSegmentRemain, ho, if_true]
  by_cases hrem : remChunk o.maxSamp s.samples = []
  · have hcnt : ((packSegmentRecords o s).map List.length).sum
        = s.samples.length / o.maxSamp * o.maxSamp := by
      rw [emitted_count_seg, if_neg]
      intro hc
      exact hc.2 hrem
    rw [hcnt, if_pos]
    rw [List.isEmpty_iff]
    exact hrem
  · have hcnt : ((packSegmentRecords o s).map List.length).sum = s.samples.length := by
      rw [emitted_count_seg, if_pos ⟨hf, hrem⟩]
    rw [hcnt, if_pos]
    simp [List.isEmpty_iff, List.drop_eq_nil_iff]

/-- Without `remove_packed`, a segment survives an invocation unchanged. -/
theorem packSegmentRemain_no_remove (o : GenOpts) (s : Segment)
    (ho : o.removePacked = false) :
    packSegmentRemain o s = some s := by
  simp [packSegmentRemain, ho]

/-- Conservation over a Trace ID's segments under `remove_packed`. -/
theorem packSegments_conserve (o : GenOpts) (ho : o.removePacked = true)
    (segs : List Segment) :
    (((packSegments o segs).1.map List.length).sum)
        + (((packSegments o segs).2.map fun s => s.samples.length).sum)
      = (segs.map fun s => s.samples.length).sum := by
  induction segs with
  | nil => simp [packSegments]
  | cons s rest ih =>
    have hc := packSegmentRemain_conserve o s ho
    rw [packSegments]
    cases hrem : packSegmentRemain o s with
    | none =>
      rw [hrem, retainedCount_none] at hc
      simp only [List.map_append, List.sum_append, List.map_cons, List.sum_cons]
      omega
    | some s2 =>
      rw [hrem, retainedCount_some] at hc
      simp only [List.map_append, List.sum_append, List.map_cons, List.sum_cons]
      omega

/-- Under `flush_data` and `remove_packed`, no segment survives. -/
theorem packSegments_flush (o : GenOpts) (ho : o.removePacked = true)
    (hf : o.flushData = true) (segs : List Segment) :
    (packSegments o segs).2 = [] := by
  induction segs with
  | nil => rfl
  | cons s rest ih =>
    rw [packSegments, packSegmentRemain_flush o s ho hf]
    exact ih

/-- Without `remove_packed`, an invocation leaves every segment in place. -/
theorem packSegments_no_remove (o : GenOpts) (ho : o.removePacked = false)
    (segs : List Segment) :
    (packSegments o segs).2 = segs := by
  induction segs with
  | nil => rfl
  | cons s rest ih =>
    rw [packSegments, packSegmentRemain_no_remove o s ho]
    rw [ih]

/-- Conservation over the whole Trace List under `remove_packed`. -/
theorem generate_conserve (o : GenOpts) (ho : o.removePacked = true)
    (tl : TraceList) :
    emittedSampleCount (generate o tl).1 + bufferedCount (generate o tl).2
      = bufferedCount tl := by
  induction tl with
  | nil => rfl
  | cons p rest ih =>
    obtain ⟨k, tid⟩ := p
    have hc := packSegments_conserve o ho tid.segments
    rw [generate]
    simp only [emittedSampleCount, bufferedCount, List.map_append, List.sum_append,
      List.map_map] at ih ⊢
    by_cases hempty : (packSegments o tid.segments).2.isEmpty = true
    · rw [if_pos hempty]
      rw [List.isEmpty_iff] at hempty
      rw [hempty] at hc
      simp only [List.map_nil, List.sum_nil] at hc
      have : ((packSegments o tid.segments).1.map
          ((fun r => r.2.length) ∘ fun rs => (k, rs))).sum
          = ((packSegments o tid.segments).1.map List.length).sum := by
        rfl
      simp only [List.map_cons, List.sum_cons]
      omega
    · rw [if_neg hempty]
      simp only [List.map_cons, List.sum_cons]
      have : ((packSegments o tid.segments).1.map
          ((fun r => r.2.length) ∘ fun rs => (k, rs))).sum
          = ((packSegments o tid.segments).1.map List.length).sum := by
        rfl
      omega

/-- Under `flush_data` and `remove_packed`, one invocation empties the
whole Trace List: every drained segment is removed from its Trace ID and
every emptied Trace ID is removed from the mapping. -/
theorem generate_flush_empty (o : GenOpts) (ho : o.removePacked = true)
    (hf : o.flushData = true) (tl : TraceList) :
    (generate o tl).2 = [] := by
  induction tl with
  | nil => rfl
  | cons p rest ih =>
    obtain ⟨k, tid⟩ := p
    rw [generate]
    rw [packSegments_flush o ho hf tid.segments]
    simp only [List.isEmpty_nil, if_true]
    exact ih

/-- Merging a chunk into one channel's segments adds exactly its samples. -/
theorem mergeIntoSegments_count (segs : List Segment) (t per : Int)
    (c : List Int) :
    ((mergeIntoSegments segs t per c).map fun s => s.samples.length).sum
      = (segs.map fun s => s.samples.length).sum + c.length := by
  induction segs with
  | nil => simp [mergeIntoSegments]
  | cons s rest ih =>
    cases rest with
    | nil =>
      rw [mergeIntoSegments]
      split
      · simp
      · simp
    | cons s2 rest2 =>
      rw [mergeIntoSegments]
      simp only [List.map_cons, List.sum_cons, ih]
      omega

/-- `add_data` increases the buffered total by exactly the chunk length. -/
theorem addData_count (tl : TraceList) (sid : String) (t per : Int)
    (c : List Int) :
    bufferedCount (addData tl sid t per c) = bufferedCount tl + c.length := by
  induction tl with
  | nil => simp [addData, bufferedCount]
  | cons p rest ih =>
    obtain ⟨k, tid⟩ := p
    rw [addData]
    by_cases h1 : sid = k
    · rw [if_pos h1]
      simp only [bufferedCount, List.map_cons, List.sum_cons]
      rw [mergeIntoSegments_count]
      omega
    · rw [if_neg h1]
      simp only [bufferedCount, List.map_cons, List.sum_cons] at ih ⊢
      omega

/-- Conservation across a whole rolling-buffer run: samples emitted plus
samples still buffered equal samples added plus what was buffered at the
start. -/
theorem runStream_conserve (ops : List StreamOp) :
    ∀ tl : TraceList,
      emittedSampleCount (runStream ops tl).1 + bufferedCount (runStream ops tl).2
        = addedCount ops + bufferedCount tl := by
  induction ops with
  | nil =>
    intro tl
    simp [runStream, addedCount, emittedSampleCount]
  | cons op rest ih =>
    intro tl
    cases op with
    | add sid t per c =>
      rw [runStream, addedCount, ih, addData_count]
      omega
    | gen n f =>
      rw [runStream, addedCount]
      simp only [emittedSampleCount, List.map_append, List.sum_append]
      have hg := generate_conserve ⟨n, f, true⟩ rfl tl
      have hr := ih (generate ⟨n, f, true⟩ tl).2
      simp only [emittedSampleCount] at hg hr
      omega

/-- Running a concatenation of operation lists runs them in sequence. -/
theorem runStream_append (l1 l2 : List StreamOp) :
    ∀ tl : TraceList,
      runStream (l1 ++ l2) tl
        = ((runStream l1 tl).1 ++ (runStream l2 (runStream l1 tl).2).1,
            (runStream l2 (runStream l1 tl).2).2) := by
  induction l1 with
  | nil =>
    intro tl
    simp [runStream]
  | cons op rest ih =>
    intro tl
    cases op with
    | add sid t per c =>
      rw [List.cons_append, runStream, runStream, ih]
    | gen n f =>
      rw [List.cons_append, runStream, runStream, ih]
      simp [List.append_assoc]

/-- The `add` total of a concatenation splits. -/
theorem addedCount_append (l1 l2 : List StreamOp) :
    addedCount (l1 ++ l2) = addedCount l1 + addedCount l2 := by
  induction l1 with
  | nil => simp [addedCount]
  | cons op rest ih =>
    cases op with
    | add sid t per c =>
      rw [List.cons_append, addedCount, addedCount, ih]
      omega
    | gen n f =>
      rw [List.cons_append, addedCount, addedCount, ih]

/-- C4: for every interleaving of `add_data` chunks and `remove_packed`
generate invocations ending with a `flush_data` invocation, the total
number of samples emitted across all invocations equals the total number of
samples added (each buffered sample is consumed exactly once), and the
Trace List is empty afterward: drained segments are removed from their
Trace IDs and emptied Trace IDs from the mapping. -/
theorem rollingbuffer_drain (ops : List StreamOp) (n : Nat) :
    emittedSampleCount (runStream (ops ++ [StreamOp.gen n true]) []).1
        = addedCount ops
      ∧ (runStream (ops ++ [StreamOp.gen n true]) []).2 = [] := by
  have hempty : (runStream (ops ++ [StreamOp.gen n true]) []).2 = [] := by
    rw [runStream_append]
    simp only [runStream]
    exact generate_flush_empty ⟨n, true, true⟩ rfl rfl _
  have hcons := runStream_conserve (ops ++ [StreamOp.gen n true]) []
  rw [hempty, addedCount_append] at hcons
  simp only [addedCount, bufferedCount, List.map_nil, List.sum_nil, Nat.add_zero] at hcons
  exact ⟨hcons, hempty⟩

set_option maxRecDepth 100000 in
/-- C5 counterexample: ten iterations of 100-sample chunks give each of the
three channels 1000 samples (3000 in total), not 2000, and channel `A`
yields 3 records (two full 400-sample records plus a flushed 200-sample
remainder), not 5. -/
theorem pack_three_channels_counterexample :
    addedCount (c5Ops 10) = 3000
      ∧ ((runStream (c5Ops 10) []).1.countP fun r => r.1 == "A") = 3
      ∧ ¬((runStream (c5Ops 10) []).1.countP fun r => r.1 == "A") = 5 := by
  refine ⟨by decide, by decide, by decide⟩

set_option maxRecDepth 400000 in
/-- C5 (amended): with twenty iterations — so that each channel receives
2000 samples in 100-sample chunks — packing after each iteration without
flushing and flushing once at the end emits exactly 5 records per channel
at a 400-sample record capacity, every added sample is emitted (6000 of
6000), and no samples remain buffered: the Trace List is empty. -/
theorem pack_three_channels_five_records :
    (((runStream (c5Ops 20) []).1.countP fun r => r.1 == "A") = 5
        ∧ ((runStream (c5Ops 20) []).1.countP fun r => r.1 == "B") = 5
        ∧ ((runStream (c5Ops 20) []).1.countP fun r => r.1 == "C") = 5)
      ∧ (runStream (c5Ops 20) []).2 = []
      ∧ emittedSampleCount (runStream (c5Ops 20) []).1 = addedCount (c5Ops 20)
      ∧ addedCount (c5Ops 20) = 6000 := by
  refine ⟨⟨by decide, by decide, by decide⟩, by decide, by decide, by decide⟩

/-- C6: a generate/pack invocation without `remove_packed` leaves the Trace
List unchanged — every segment keeps its buffered samples, start time and
count — so a subsequent invocation emits exactly the same records again. -/
theorem generate_no_remove (o : GenOpts) (tl : TraceList)
    (ho : o.removePacked = false)
    (htl : ∀ p ∈ tl, p.2.segments ≠ []) :
    (generate o tl).2 = tl
      ∧ (generate o (generate o tl).2).1 = (generate o tl).1 := by
  have h2 : ∀ tl' : TraceList, (∀ p ∈ tl', p.2.segments ≠ []) →
      (generate o tl').2 = tl' := by
    intro tl'
    induction tl' with
    | nil => intro _; rfl
    | cons p rest ih =>
      intro htl'
      obtain ⟨k, tid⟩ := p
      have hne : ¬tid.segments.isEmpty = true := by
        rw [List.isEmpty_iff]
        exact htl' (k, tid) (List.mem_cons_self _ _)
      simp only [generate, packSegments_no_remove o ho]
      rw [if_neg hne]
      rw [ih fun q hq => htl' q (List.mem_cons_of_mem _ hq)]
  have h := h2 tl htl
  refine ⟨h, ?_⟩
  rw [h]

/-- Closed instantiation of `generate_no_remove` on a one-channel Trace
List holding three buffered samples. -/
theorem generate_no_remove_witness :
    (⟨2, false, false⟩ : GenOpts).removePacked = false
      ∧ ((generate ⟨2, false, false⟩ [("A", ⟨[⟨0, 10, [1, 2, 3]⟩]⟩)]).2
            = [("A", ⟨[⟨0, 10, [1, 2, 3]⟩]⟩)]
          ∧ (generate ⟨2, false, false⟩
                (generate ⟨2, false, false⟩ [("A", ⟨[⟨0, 10, [1, 2, 3]⟩]⟩)]).2).1
              = (generate ⟨2, false, false⟩ [("A", ⟨[⟨0, 10, [1, 2, 3]⟩]⟩)]).1) :=
  ⟨rfl, generate_no_remove ⟨2, false, false⟩ [("A", ⟨[⟨0, 10, [1, 2, 3]⟩]⟩)] rfl
    (by decide)⟩

/-- Inserting a reference no later than every list element puts it first. -/
theorem insertByStart_front (r : RecordRef) (l : List RecordRef)
    (h : ∀ x ∈ l, r.starttime ≤ x.starttime) : insertByStart r l = r :: l := by
  cases l with
  | nil => rfl
  | cons x xs => rw [insertByStart, if_pos (h x (List.mem_cons_self _ _))]

/-- Sorting an already time-ordered reference list is the identity. -/
theorem sortByStart_sorted_id (l : List RecordRef)
    (h : l.Pairwise fun a b => a.starttime ≤ b.starttime) : sortByStart l = l := by
  induction l with
  | nil => rfl
  | cons x xs ih =>
    rw [sortByStart, ih (List.pairwise_cons.1 h).2]
    exact insertByStart_front x xs (List.pairwise_cons.1 h).1

/-- C7: a segment ingested in index-only mode reports `numsamples = 0`;
after `unpack_recordlist` decodes every referenced range in ascending time
order, `numsamples` equals the full sample count of the references and the
concatenated decoded samples equal those of eager decoding of the same
input. -/
theorem recordlist_unpack (per : Int) (refs : List RecordRef)
    (hsorted : refs.Pairwise fun a b => a.starttime ≤ b.starttime) :
    (ingestIndexOnly per refs).numsamples = 0
      ∧ (unpackRecordlist (ingestIndexOnly per refs)).numsamples
          = (refs.map fun r => r.decoded.length).sum
      ∧ (unpackRecordlist (ingestIndexOnly per refs)).samples = eagerDecode refs := by
  have hs : sortByStart refs = refs := sortByStart_sorted_id refs hsorted
  refine ⟨rfl, ?_, ?_⟩
  · simp only [unpackRecordlist, ingestIndexOnly, LazySegment.numsamples, hs,
      List.length_flatMap]
    rfl
  · simp [unpackRecordlist, ingestIndexOnly, hs, eagerDecode]

/-- Closed instantiation of `recordlist_unpack` on two time-ordered record
references. -/
theorem recordlist_unpack_witness :
    ([⟨0, [1, 2]⟩, ⟨20, [3]⟩] : List RecordRef).Pairwise
        (fun a b => a.starttime ≤ b.starttime)
      ∧ ((ingestIndexOnly 10 [⟨0, [1, 2]⟩, ⟨20, [3]⟩]).numsamples = 0
          ∧ (unpackRecordlist (ingestIndexOnly 10 [⟨0, [1, 2]⟩, ⟨20, [3]⟩])).numsamples
              = (([⟨0, [1, 2]⟩, ⟨20, [3]⟩] : List RecordRef).map
                  fun r => r.decoded.length).sum
          ∧ (unpackRecordlist (ingestIndexOnly 10 [⟨0, [1, 2]⟩, ⟨20, [3]⟩])).samples
              = eagerDecode [⟨0, [1, 2]⟩, ⟨20, [3]⟩]) :=
  ⟨by decide, recordlist_unpack 10 [⟨0, [1, 2]⟩, ⟨20, [3]⟩] (by decide)⟩

/-- Reading back a queue just written for the same thread. -/
theorem regLookup_regSet_self (reg : LogRegistries) (t : ThreadId)
    (m : List String) : regLookup (regSet reg t m) t = m := by
  induction reg with
  | nil => simp [regSet, regLookup]
  | cons p rest ih =>
    obtain ⟨k, v⟩ := p
    by_cases h : k = t
    · simp [regSet, regLookup, h]
    · simp [regSet, regLookup, h, ih]

/-- Writing one thread's queue never changes what another thread reads. -/
theorem regLookup_regSet_ne (reg : LogRegistries) (t1 t2 : ThreadId)
    (m : List String) (h : t1 ≠ t2) :
    regLookup (regSet reg t2 m) t1 = regLookup reg t1 := by
  have h2 : t2 ≠ t1 := Ne.symm h
  induction reg with
  | nil => simp [regSet, regLookup, h2]
  | cons p rest ih =>
    obtain ⟨k, v⟩ := p
    by_cases hk : k = t2
    · subst hk
      simp [regSet, regLookup, h2]
    · simp [regSet, regLookup, hk, ih]

/-- C9: diagnostic capture is thread-local.  `get_error_messages` on thread
`t1` returns exactly `t1`'s registry content; a diagnostic produced by
thread `t2`, a `clear_error_messages` by `t2`, and a draining
`get_error_messages` by `t2` all leave `t1`'s registry untouched, so two
runs differing only in `t2`'s activity return the same messages on `t1`. -/
theorem logging_thread_isolation (t1 t2 : ThreadId) (reg : LogRegistries)
    (cap : Nat) (msg : String) (h : t1 ≠ t2) :
    (get_error_messages t1 reg).1 = regLookup reg t1
      ∧ regLookup (logMessage t2 cap msg reg) t1 = regLookup reg t1
      ∧ regLookup (clear_error_messages t2 reg).2 t1 = regLookup reg t1
      ∧ regLookup (get_error_messages t2 reg).2 t1 = regLookup reg t1
      ∧ (get_error_messages t1 (logMessage t2 cap msg reg)).1
          = (get_error_messages t1 reg).1 := by
  refine ⟨rfl, ?_, ?_, ?_, ?_⟩
  · rw [logMessage, regLookup_regSet_ne reg t1 t2 _ h]
  · rw [clear_error_messages, regLookup_regSet_ne reg t1 t2 _ h]
  · rw [get_error_messages, regLookup_regSet_ne reg t1 t2 _ h]
  · rw [get_error_messages, get_error_messages, logMessage,
      regLookup_regSet_ne reg t1 t2 _ h]

/-- Closed instantiation of `logging_thread_isolation` for two threads with
one captured message each. -/
theorem logging_thread_isolation_witness :
    (0 : ThreadId) ≠ 1
      ∧ ((get_error_messages 0 [(0, ["a"]), (1, ["b"])]).1
            = regLookup [(0, ["a"]), (1, ["b"])] 0
          ∧ regLookup (logMessage 1 10 "c" [(0, ["a"]), (1, ["b"])]) 0
              = regLookup [(0, ["a"]), (1, ["b"])] 0
          ∧ regLookup (clear_error_messages 1 [(0, ["a"]), (1, ["b"])]).2 0
              = regLookup [(0, ["a"]), (1, ["b"])] 0
          ∧ regLookup (get_error_messages 1 [(0, ["a"]), (1, ["b"])]).2 0
              = regLookup [(0, ["a"]), (1, ["b"])] 0
          ∧ (get_error_messages 0 (logMessage 1 10 "c" [(0, ["a"]), (1, ["b"])])).1
              = (get_error_messages 0 [(0, ["a"]), (1, ["b"])]).1) :=
  ⟨by decide, logging_thread_isolation 0 1 [(0, ["a"]), (1, ["b"])] 10 "c" (by decide)⟩

/-- C10: `get_error_messages` drains the calling thread's registry: after
one call, an immediately following call in the same thread returns the
empty list, and `clear_error_messages` then reports 0 cleared messages. -/
theorem get_error_messages_drains (t : ThreadId) (reg : LogRegistries) :
    (get_error_messages t (get_error_messages t reg).2).1 = []
      ∧ (clear_error_messages t (get_error_messages t reg).2).1 = 0 := by
  constructor
  · rw [get_error_messages, get_error_messages, regLookup_regSet_self]
  · rw [clear_error_messages, get_error_messages, regLookup_regSet_self]
    rfl
